import Mathlib

/-!
Verification of the goodreader repository's core logic: the slug/title codec
(`utilities.py`), the paginated fetch-and-extract loops (`goodreads.py`),
the fuzzy genre matcher (`commands/genre.py`) and the interactive paginator
(`inputs.py`), shallowly embedded in Lean.

Strings are modelled as `List Char`; Python's ASCII case mapping coincides
with `Char.toLower`/`Char.toUpper` (both only touch basic latin letters).
Python's `\s` character class is modelled for ASCII input.
-/

namespace Goodreader

/-- Python's `\s` (ASCII range): space, tab, newline, carriage return,
vertical tab, form feed.  Used by `_WORD_SEP_RE` and `str.strip()`. -/
def isSpace (c : Char) : Bool :=
  c = ' ' || c = '\t' || c = '\n' || c = '\r' || c = '\x0b' || c = '\x0c'

/-- A character matched by `_WORD_SEP_RE = re.compile(r"[\s\-_]+")`. -/
def isWordSep (c : Char) : Bool :=
  isSpace c || c = '-' || c = '_'

/-- Python `str.strip()`: drop leading and trailing whitespace. -/
def stripL (l : List Char) : List Char :=
  ((l.dropWhile isSpace).reverse.dropWhile isSpace).reverse

/-- Python `str.lower()` (ASCII). -/
def lowerL (l : List Char) : List Char :=
  l.map Char.toLower

/-- Python `str.capitalize()` (ASCII): first character uppercased, the rest
lowercased. -/
def capitalizeL : List Char → List Char
  | [] => []
  | c :: cs => Char.toUpper c :: cs.map Char.toLower

/-- `re.split(r"[\s\-_]+", value)` followed by dropping empty parts:
the maximal runs of non-separator characters. -/
def splitSepAux : List Char → List Char → List (List Char)
  | [], acc => if acc.isEmpty then [] else [acc.reverse]
  | c :: cs, acc =>
    if isWordSep c then
      if acc.isEmpty then splitSepAux cs []
      else acc.reverse :: splitSepAux cs []
    else splitSepAux cs (c :: acc)

def splitSepL (l : List Char) : List (List Char) :=
  splitSepAux l []

/-- `slug_to_title` from `utilities.py`:
strip; split on separator runs, dropping empties; `p.lower().capitalize()`
each part; join with single spaces. -/
def slugToTitleL (value : List Char) : List Char :=
  let v := stripL value
  if v.isEmpty then []
  else List.intercalate [' '] ((splitSepL v).map (fun p => capitalizeL (lowerL p)))

/-- A character kept by `_NON_ALNUM_RE = re.compile(r"[^a-z0-9\- ]+")`
(which deletes its complement). -/
def keepChar (c : Char) : Bool :=
  ('a' ≤ c && c ≤ 'z') || ('0' ≤ c && c ≤ '9') || c = '-' || c = ' '

/-- `_WORD_SEP_RE.sub("-", value)`: replace each maximal separator run by a
single hyphen.  The boolean records whether the previous character was part
of a separator run. -/
def collapseSepAux : Bool → List Char → List Char
  | _, [] => []
  | prevSep, c :: cs =>
    if isWordSep c then
      if prevSep then collapseSepAux true cs
      else '-' :: collapseSepAux true cs
    else c :: collapseSepAux false cs

/-- Python `str.strip("-")`. -/
def stripHyphens (l : List Char) : List Char :=
  ((l.dropWhile (fun c => c = '-')).reverse.dropWhile (fun c => c = '-')).reverse

/-- `title_to_slug` from `utilities.py`:
strip and lowercase; if empty return empty; delete characters outside
`[a-z0-9\- ]`; collapse separator runs to single hyphens; strip hyphens. -/
def titleToSlugL (value : List Char) : List Char :=
  let v := lowerL (stripL value)
  if v.isEmpty then []
  else stripHyphens (collapseSepAux false (v.filter keepChar))

/-- String-level `title_to_slug`. -/
def title_to_slug (s : String) : String :=
  ⟨titleToSlugL s.toList⟩

/-- String-level `slug_to_title`. -/
def slug_to_title (s : String) : String :=
  ⟨slugToTitleL s.toList⟩

/-! ## `goodreads.py`: the paginated fetch-and-extract loops

The network+HTML side (`_get_books_for_genre_pagination`, `soupify`,
`_extract_books_from_soup`) is an external collaborator; it is modelled as a
function `pages : Nat → List Book` giving the records extracted from each
fetched page.  The cache's `get()` result is modelled as
`cached : Option (List ...)` (`some` = fresh, readable entry) and a cache
`set` is reported in the result as `cacheWrite`. -/

/-- A book record as assembled by `_extract_books_from_soup`
(`avg_rating`, a Python float, is modelled as a rational). -/
structure Book where
  title : String
  book_url : String
  author : String
  compressed_img_url : String
  avg_rating : Rat
  total_ratings : Nat
  published_year : Nat
deriving DecidableEq, Repr

/-- Python `.strip().lower()` on a string. -/
def stripLower (s : String) : String :=
  ⟨lowerL (stripL s.toList)⟩

abbrev BookKey := String × String × Nat

/-- The dedupe/loop-detection key built in `get_books_for_genre`
(lines 142-147): `(title.strip().lower(), author.strip().lower(), int(year))`. -/
def bookKey (b : Book) : BookKey :=
  (stripLower b.title, stripLower b.author, b.published_year)

/-- The mutable loop state of `get_books_for_genre`:
`books`, `seen_keys`, `seen_page_signatures` (sets modelled as lists,
queried by membership). -/
structure BooksLoopState where
  books : List Book
  seenKeys : List BookKey
  seenSigs : List (List BookKey)
deriving Repr

/-- Lines 161-167: walk the page's books, appending each book whose key is
unseen and recording its key; returns the new state and the `added` count. -/
def addBooks : BooksLoopState → List Book → BooksLoopState × Nat
  | st, [] => (st, 0)
  | st, b :: rest =>
    if bookKey b ∈ st.seenKeys then addBooks st rest
    else
      let st' : BooksLoopState :=
        { st with
          books := st.books ++ [b]
          seenKeys := bookKey b :: st.seenKeys }
      let r := addBooks st' rest
      (r.1, r.2 + 1)

/-- Why the `while` loop of `get_books_for_genre` stopped. -/
inductive StopReason
  | maxPagesCap
  | emptyPage
  | repeatedSignature
  | noNewBooks
deriving DecidableEq, Repr

/-- `page > max_pages` when `max_pages` is set (line 120). -/
def capExceeded (maxPages : Option Nat) (page : Nat) : Bool :=
  match maxPages with
  | some m => page > m
  | none => false

structure BooksRunOut where
  books : List Book
  reason : StopReason
  fetchedPages : List Nat
deriving Repr

/-- The `while True` loop of `get_books_for_genre` (lines 119-187), with
explicit fuel (`none` = fuel exhausted; the real loop is given enough).
`fetchedPages` records every page for which a fetch was performed. -/
def booksLoop (pages : Nat → List Book) (maxPages : Option Nat) :
    Nat → Nat → BooksLoopState → Option BooksRunOut
  | 0, _, _ => none
  | fuel + 1, page, st =>
    if capExceeded maxPages page then
      some ⟨st.books, .maxPagesCap, []⟩
    else
      let pageBooks := pages page
      if pageBooks.isEmpty then
        some ⟨st.books, .emptyPage, [page]⟩
      else
        let sig := pageBooks.map bookKey
        if sig ∈ st.seenSigs then
          some ⟨st.books, .repeatedSignature, [page]⟩
        else
          let r := addBooks { st with seenSigs := sig :: st.seenSigs } pageBooks
          if r.2 = 0 then
            some ⟨r.1.books, .noNewBooks, [page]⟩
          else
            match booksLoop pages maxPages fuel (page + 1) r.1 with
            | none => none
            | some out => some { out with fetchedPages := page :: out.fetchedPages }

/-- `GoodreadsClient._normalize_genre_slug`: `strip().lower().replace(" ", "-")`. -/
def normalizeGenreSlug (genre : String) : String :=
  ⟨(lowerL (stripL genre.toList)).map (fun c => if c = ' ' then '-' else c)⟩

/-- `GoodreadsClient._books_for_genre_cache_key`. -/
def booksForGenreCacheKey (genre : String) : String :=
  "books_for_genre:" ++ normalizeGenreSlug genre

structure BooksResult where
  books : List Book
  cacheWrite : Option (List Book)
  fetchedPages : List Nat
deriving Repr

/-- The fetch path of `get_books_for_genre` after the cache check:
run the loop, then `cache.set(books)` only when
`use_cache and dump_pages_dir is None` (lines 193-195). -/
def booksRun (pages : Nat → List Book) (use_cache : Bool)
    (maxPages : Option Nat) (dumpPagesDir : Option String) (fuel : Nat) :
    Option BooksResult :=
  match booksLoop pages maxPages fuel 1 ⟨[], [], []⟩ with
  | none => none
  | some out =>
    some ⟨out.books,
      if use_cache && dumpPagesDir.isNone then some out.books else none,
      out.fetchedPages⟩

/-- `GoodreadsClient.get_books_for_genre` (lines 73-197).  The cache is read
only when `use_cache and dump_pages_dir is None` (line 98); note the source's
default is `dump_pages_dir="."`.  `cached` is the value `cache.get()` would
return (`some` = fresh hit). -/
def get_books_for_genre (pages : Nat → List Book) (cached : Option (List Book))
    (use_cache : Bool) (maxPages : Option Nat) (dumpPagesDir : Option String)
    (fuel : Nat) : Option BooksResult :=
  if use_cache && dumpPagesDir.isNone then
    match cached with
    | some data => some ⟨data, none, []⟩
    | none => booksRun pages use_cache maxPages dumpPagesDir fuel
  else booksRun pages use_cache maxPages dumpPagesDir fuel

/-- The `while True` loop of `get_genres` (lines 51-63): extend by the page's
extracted genres (extending by an empty page is a no-op, and an empty page
does NOT stop the loop), stop only when `_has_next_page` is false.
`hasNext` models `_has_next_page(soup)` for each page. -/
def genresLoop (pages : Nat → List String) (hasNext : Nat → Bool) :
    Nat → Nat → List String → Option (List String × List Nat)
  | 0, _, _ => none
  | fuel + 1, page, acc =>
    let acc' := acc ++ pages page
    if hasNext page then
      match genresLoop pages hasNext fuel (page + 1) acc' with
      | none => none
      | some r => some (r.1, page :: r.2)
    else some (acc', [page])

structure GenresResult where
  genres : List String
  cacheWrite : Option (List String)
  fetchedPages : List Nat
deriving Repr

/-- `GoodreadsClient.get_genres` (lines 36-67): on `use_cache` and a cache
hit, return the cached list; otherwise run the loop and then — on line 66,
unconditionally, whatever `use_cache` is — `cache.set(genres)`. -/
def get_genres (pages : Nat → List String) (hasNext : Nat → Bool)
    (cached : Option (List String)) (use_cache : Bool) (fuel : Nat) :
    Option GenresResult :=
  let run : Option GenresResult :=
    match genresLoop pages hasNext fuel 1 [] with
    | none => none
    | some r => some ⟨r.1, some r.1, r.2⟩
  if use_cache then
    match cached with
    | some data => some ⟨data, none, []⟩
    | none => run
  else run

/-! ## `commands/genre.py`: the fuzzy genre matcher

`difflib.SequenceMatcher(...).ratio()` is Python standard-library code, an
external collaborator; it is modelled as a parameter
`score : String → String → Rat`.  Python's `list.sort(key=..., reverse=True)`
is stable; it is modelled by a stable descending insertion sort. -/

/-- Python `str.strip()` on a string. -/
def stripS (s : String) : String :=
  ⟨stripL s.toList⟩

/-- Stable descending insertion: `x` is placed before the first element whose
score is at most `x`'s, hence after every earlier element of equal score. -/
def insertDesc (x : String × Rat) : List (String × Rat) → List (String × Rat)
  | [] => [x]
  | y :: ys => if x.2 ≥ y.2 then x :: y :: ys else y :: insertDesc x ys

/-- Stable sort, descending by score: models
`scored.sort(key=lambda x: x[1], reverse=True)`. -/
def sortDesc : List (String × Rat) → List (String × Rat)
  | [] => []
  | x :: xs => insertDesc x (sortDesc xs)

def AUTO_PICK_CUTOFF : Rat := 9 / 10
def AUTO_PICK_MARGIN : Rat := 7 / 100
def MAX_SUGGESTIONS : Nat := 10

/-- `_rank_genre_matches`: slugify the stripped keyword, score every genre
slug against it, sort descending by score (stably). -/
def rank_genre_matches (score : String → String → Rat) (keyword : String)
    (genres : List String) : List (String × Rat) :=
  let key := title_to_slug (stripS keyword)
  sortDesc (genres.map (fun g => (g, score key g)))

/-- How `genre_command` decides on a genre. -/
inductive GenreResolution
  | exact (slug : String)
  | autoPick (slug : String)
  | offer (candidates : List (String × Rat))
deriving DecidableEq, Repr

/-- `ranked[1][1] if len(ranked) > 1 else 0.0` (genre.py line 65), applied to
the tail of the ranked list. -/
def secondScore : List (String × Rat) → Rat
  | [] => 0
  | y :: _ => y.2

/-- The genre-resolution logic of `genre_command` (genre.py lines 52-90):
exact slug match wins immediately; otherwise rank and auto-pick the top
candidate iff its score is ≥ 0.90 and ahead of the runner-up by ≥ 0.07; else
offer the top 10 candidates for interactive selection.  The `[]` branch is
unreachable in the source (`genre_command` returns early when `genres` is
empty, so `ranked[0]` exists). -/
def genreResolution (score : String → String → Rat) (keyword : String)
    (genres : List String) : GenreResolution :=
  let keySlug := title_to_slug (stripS keyword)
  if keySlug ∈ genres then .exact keySlug
  else
    match rank_genre_matches score keyword genres with
    | [] => .offer []
    | (bestSlug, bestScore) :: rest =>
      if bestScore ≥ AUTO_PICK_CUTOFF ∧ bestScore - secondScore rest ≥ AUTO_PICK_MARGIN then
        .autoPick bestSlug
      else
        .offer (((bestSlug, bestScore) :: rest).take MAX_SUGGESTIONS)

/-! ## `inputs.py`: the interactive paginator

User input is modelled as a scripted list of lines; running out of input
models `EOFError`/`KeyboardInterrupt` at a prompt (which the source treats as
quit). -/

/-- The numeric value of a nonempty all-digit character list. -/
def digitsVal (l : List Char) : Option Nat :=
  if l.isEmpty then none
  else if l.all Char.isDigit then
    some (l.foldl (fun a c => a * 10 + (c.toNat - 48)) 0)
  else none

/-- Python `int(s)` on an already-stripped string: optional sign followed by
digits; anything else raises `ValueError` (here: `none`). -/
def parsePyInt (s : String) : Option Int :=
  match s.toList with
  | '-' :: rest => (digitsVal rest).map (fun n => -(n : Int))
  | '+' :: rest => (digitsVal rest).map (fun n => (n : Int))
  | l => (digitsVal l).map (fun n => (n : Int))

/-- The `while True` prompt loop of `paginate` (inputs.py lines 86-167),
driven by a scripted input list.  `page` is 1-based; an exhausted script is
end-of-input at the prompt, i.e. quit.  Requires `pageSize > 0` (guaranteed
by the caller `paginate`). -/
def paginateLoop {T : Type} (items : List T) (pageSize : Nat) (noSelect : Bool) :
    Nat → List String → Option T
  | _, [] => none
  | page, input :: rest =>
    let total := items.length
    let pages := (total + pageSize - 1) / pageSize
    let start := (page - 1) * pageSize
    let low := start + 1
    let high := min (start + pageSize) total
    let cmd := stripLower input
    if cmd = "" then paginateLoop items pageSize noSelect page rest
    else if cmd = "q" then none
    else if cmd = "n" then
      paginateLoop items pageSize noSelect
        (if page < pages then page + 1 else page) rest
    else if cmd = "p" ∨ cmd = "b" then
      paginateLoop items pageSize noSelect
        (if page > 1 then page - 1 else page) rest
    else if cmd = "g" then
      match rest with
      | [] => none
      | gRaw :: rest' =>
        let g := stripLower gRaw
        if g = "" then paginateLoop items pageSize noSelect page rest'
        else if g = "q" then none
        else
          match parsePyInt g with
          | none => paginateLoop items pageSize noSelect page rest'
          | some gp =>
            if 1 ≤ gp ∧ gp ≤ (pages : Int) then
              paginateLoop items pageSize noSelect gp.toNat rest'
            else paginateLoop items pageSize noSelect page rest'
    else if noSelect then paginateLoop items pageSize noSelect page rest
    else
      match parsePyInt cmd with
      | none => paginateLoop items pageSize noSelect page rest
      | some pick =>
        if (low : Int) ≤ pick ∧ pick ≤ (high : Int) then
          items.get? (pick.toNat - 1)
        else paginateLoop items pageSize noSelect page rest

/-- `paginate` (inputs.py lines 16-63): `page_size <= 0` raises
`ValueError` before any output or prompt; an empty `items` prints
"No results." and returns `None` without prompting; otherwise the prompt
loop runs from page 1. -/
def paginate {T : Type} (items : List T) (pageSize : Int) (noSelect : Bool)
    (inputs : List String) : Except String (Option T) :=
  if pageSize ≤ 0 then .error "page_size must be > 0"
  else if items.length = 0 then .ok none
  else .ok (paginateLoop items pageSize.toNat noSelect 1 inputs)

/-! ## Auxiliary definitions for the theorems -/

/-- Reference definition following the spec's words for deduplication: keep
only the first occurrence, in stream order, of each identity key not already
in `seen`. -/
def dedupByKey (seen : List BookKey) : List Book → List Book
  | [] => []
  | b :: rest =>
    if bookKey b ∈ seen then dedupByKey seen rest
    else b :: dedupByKey (bookKey b :: seen) rest

/-- Concatenation of the extracted pages `lo, lo+1, ..., lo+n-1`. -/
def pagesConcat (pages : Nat → List Book) (lo : Nat) : Nat → List Book
  | 0 => []
  | n + 1 => pages lo ++ pagesConcat pages (lo + 1) n

/-- A concrete book used in counterexamples and witnesses. -/
def cexBook : Book :=
  { title := "A", book_url := "", author := "B", compressed_img_url := "",
    avg_rating := 0, total_ratings := 0, published_year := 0 }

/-- A second concrete book, with an identity key different from `cexBook`. -/
def cexBook2 : Book :=
  { title := "C", book_url := "", author := "D", compressed_img_url := "",
    avg_rating := 0, total_ratings := 0, published_year := 0 }

/-- A character allowed inside a normalized slug token. -/
def isSlugChar (c : Char) : Bool :=
  ('a' ≤ c && c ≤ 'z') || ('0' ≤ c && c ≤ '9')

/-- The claim's normal form for a slug: only lowercase-alphanumeric
characters and hyphens, and the string is exactly the hyphen-join of its own
(nonempty, separator-free) tokens — which rules out leading, trailing and
doubled hyphens. -/
def isNormalizedSlug (s : List Char) : Prop :=
  (∀ c ∈ s, (isSlugChar c || c = '-') = true) ∧
  s = List.intercalate ['-'] (splitSepL s)

instance (s : List Char) : Decidable (isNormalizedSlug s) := by
  unfold isNormalizedSlug
  infer_instance

/-! ## Sanity checks from the spec's testable properties -/

example : title_to_slug "" = "" := rfl
example : slug_to_title "" = "" := rfl
example : title_to_slug "Science  Fiction!" = "science-fiction" := rfl
example : slug_to_title "science-fiction" = "Science Fiction" := rfl
example : title_to_slug (slug_to_title "science-fiction") = "science-fiction" := rfl

/-! ## Theorems about the paginator -/

/-- C10: `paginate` with `page_size ≤ 0` signals the configuration error, for
every input script alike (so before any output or interaction); with an empty
item list it returns `none`, again independently of the input script (no
prompting). -/
theorem paginate_preconditions {T : Type} (items : List T) (pageSize : Int)
    (noSelect : Bool) (inputs : List String) :
    (pageSize ≤ 0 → paginate items pageSize noSelect inputs = .error "page_size must be > 0") ∧
    (0 < pageSize → items = [] → paginate items pageSize noSelect inputs = .ok none) := by
  constructor
  · intro h
    simp [paginate, h]
  · intro h h2
    subst h2
    simp [paginate]
    omega

theorem paginate_preconditions_witness :
    ((-1 : Int) ≤ 0 ∧ paginate ([] : List Nat) (-1) false ["x"] = .error "page_size must be > 0") ∧
    ((0 : Int) < 5 ∧ paginate ([] : List Nat) 5 false ["x"] = .ok none) :=
  ⟨⟨by decide, (paginate_preconditions [] (-1) false ["x"]).1 (by decide)⟩,
   ⟨by decide, (paginate_preconditions [] 5 false ["x"]).2 (by decide) rfl⟩⟩

/-- C9: with selection enabled (`no_select = False`), an input line that
parses as an integer outside the displayed range
`(page-1)*page_size+1 .. min((page-1)*page_size+page_size, total)` makes the
prompt loop continue on the remaining script with the page unchanged, while
an integer inside that range immediately returns the item at that 1-based
global index. -/
theorem paginate_selection_range {T : Type} (items : List T) (pageSize page : Nat)
    (input : String) (rest : List String) (pick : Int)
    (hparse : parsePyInt (stripLower input) = some pick) :
    (¬((((page - 1) * pageSize + 1 : Nat) : Int) ≤ pick ∧
        pick ≤ ((min ((page - 1) * pageSize + pageSize) items.length : Nat) : Int)) →
      paginateLoop items pageSize false page (input :: rest) =
        paginateLoop items pageSize false page rest) ∧
    ((((page - 1) * pageSize + 1 : Nat) : Int) ≤ pick →
      pick ≤ ((min ((page - 1) * pageSize + pageSize) items.length : Nat) : Int) →
      paginateLoop items pageSize false page (input :: rest) =
        items.get? (pick.toNat - 1) ∧ pick.toNat - 1 < items.length) := by
  have hnone : ∀ s : String, s ∈ ["", "q", "n", "p", "b", "g"] → parsePyInt s = none := by
    decide
  have hne : ∀ s : String, s ∈ ["", "q", "n", "p", "b", "g"] → stripLower input ≠ s := by
    intro s hs h
    rw [h, hnone s hs] at hparse
    exact Option.noConfusion hparse
  have step : paginateLoop items pageSize false page (input :: rest) =
      if (((page - 1) * pageSize + 1 : Nat) : Int) ≤ pick ∧
          pick ≤ ((min ((page - 1) * pageSize + pageSize) items.length : Nat) : Int) then
        items.get? (pick.toNat - 1)
      else paginateLoop items pageSize false page rest := by
    conv_lhs => unfold paginateLoop
    simp only [hne "" (by simp), hne "q" (by simp), hne "n" (by simp), hne "p" (by simp),
      hne "b" (by simp), hne "g" (by simp), if_false, ite_false, or_self, hparse,
      Bool.false_eq_true, if_neg, not_false_iff]
  constructor
  · intro hnot
    rw [step, if_neg hnot]
  · intro hlo hhi
    refine ⟨by rw [step, if_pos ⟨hlo, hhi⟩], ?_⟩
    omega

theorem paginate_selection_range_witness :
    (parsePyInt (stripLower "2") = some 2 ∧
      paginateLoop [10, 20, 30] 2 false 1 ["2"] = some 20) ∧
    (parsePyInt (stripLower "0") = some 0 ∧
      paginateLoop [10, 20, 30] 2 false 1 ["0", "q"] = paginateLoop [10, 20, 30] 2 false 1 ["q"]) := by
  constructor
  · refine ⟨by decide, ?_⟩
    have h := (paginate_selection_range [10, 20, 30] 2 1 "2" [] 2 (by decide)).2
      (by norm_num) (by norm_num)
    simpa using h.1
  · refine ⟨by decide, ?_⟩
    exact (paginate_selection_range [10, 20, 30] 2 1 "0" ["q"] 0 (by decide)).1 (by norm_num)

/-! ## Theorems about the cache interaction (C1, C2) and stop conditions (C3) -/

/-- C1 counterexample: `get_books_for_genre` called with `use_cache=True` and
a fresh cache entry present, but with the source's *default*
`dump_pages_dir="."`, does NOT return the cached list and DOES fetch page 1
(the cache read on line 98 requires `dump_pages_dir is None`). -/
theorem books_cache_read_skipped_counterexample :
    get_books_for_genre (fun _ => []) (some [cexBook]) true (some 200) (some ".") 1 =
      some { books := [], cacheWrite := none, fetchedPages := [1] } ∧
    ([1] : List Nat) ≠ [] ∧ ([] : List Book) ≠ [cexBook] :=
  ⟨rfl, by decide, by decide⟩

/-- C1 amended: on `use_cache` with a fresh cache entry, `get_genres` returns
the cached list with no fetch and no write; `get_books_for_genre` does the
same **provided additionally** the run is not instrumented
(`dump_pages_dir is None`). -/
theorem cache_hit_returns_cached (pagesB : Nat → List Book) (pagesG : Nat → List String)
    (hasNext : Nat → Bool) (dataB : List Book) (dataG : List String)
    (mp : Option Nat) (fuelB fuelG : Nat) :
    get_genres pagesG hasNext (some dataG) true fuelG =
      some { genres := dataG, cacheWrite := none, fetchedPages := [] } ∧
    get_books_for_genre pagesB (some dataB) true mp none fuelB =
      some { books := dataB, cacheWrite := none, fetchedPages := [] } := by
  constructor
  · simp [get_genres]
  · simp [get_books_for_genre]

/-- C2 counterexample: `get_genres` with `use_cache=False` still writes the
fetched list to the cache (line 66 `cache.set(genres)` is unconditional), so
a run with `use_cache` false does not leave the cache state unchanged. -/
theorem genres_cache_write_unconditional_counterexample :
    get_genres (fun _ => ["a"]) (fun _ => false) none false 1 =
      some { genres := ["a"], cacheWrite := some ["a"], fetchedPages := [1] } ∧
    (some ["a"] : Option (List String)) ≠ none :=
  ⟨rfl, by decide⟩

/-- C2 amended: `get_books_for_genre` writes the accumulated list to cache
iff cache usage was requested and the run is not instrumented, and in
particular a `use_cache=False` run writes nothing; but `get_genres` writes
the accumulated list on every completed fetch run, even with
`use_cache=False`. -/
theorem cache_write_policy (pagesB : Nat → List Book) (cached : Option (List Book))
    (uc : Bool) (mp : Option Nat) (dump : Option String) (fuelB : Nat) (res : BooksResult)
    (pagesG : Nat → List String) (hasNext : Nat → Bool) (cachedG : Option (List String))
    (fuelG : Nat) (resG : GenresResult)
    (hB : get_books_for_genre pagesB cached uc mp dump fuelB = some res)
    (hG : get_genres pagesG hasNext cachedG false fuelG = some resG) :
    (res.cacheWrite ≠ none → uc = true ∧ dump = none ∧ res.cacheWrite = some res.books) ∧
    (uc = false → res.cacheWrite = none) ∧
    resG.cacheWrite = some resG.genres := by
  have hrun : ∀ r : BooksResult, booksRun pagesB uc mp dump fuelB = some r →
      (r.cacheWrite ≠ none → uc = true ∧ dump = none ∧ r.cacheWrite = some r.books) ∧
      (uc = false → r.cacheWrite = none) := by
    intro r hr
    unfold booksRun at hr
    rcases hloop : booksLoop pagesB mp fuelB 1 ⟨[], [], []⟩ with _ | out
    · rw [hloop] at hr; exact absurd hr (by simp)
    · rw [hloop] at hr
      rcases hcond : uc && dump.isNone with _ | _
      · simp only [hcond, if_false, Bool.false_eq_true] at hr
        cases hr
        constructor
        · intro hne; exact absurd rfl hne
        · intro _; rfl
      · simp only [hcond, if_true] at hr
        cases hr
        have huc : uc = true := by
          rcases uc with _ | _
          · simp at hcond
          · rfl
        have hdump : dump = none := by
          rcases dump with _ | d
          · rfl
          · rw [huc] at hcond; simp at hcond
        constructor
        · intro _; exact ⟨huc, hdump, rfl⟩
        · intro h; rw [h] at huc; exact absurd huc (by simp)
  have hbooks : (res.cacheWrite ≠ none → uc = true ∧ dump = none ∧ res.cacheWrite = some res.books) ∧
      (uc = false → res.cacheWrite = none) := by
    unfold get_books_for_genre at hB
    rcases hcond : uc && dump.isNone with _ | _
    · rw [hcond] at hB
      simp only [Bool.false_eq_true, if_false] at hB
      exact hrun res hB
    · rw [hcond] at hB
      simp only [if_true] at hB
      rcases cached with _ | data
      · exact hrun res hB
      · cases hB
        constructor
        · intro hne; exact absurd rfl hne
        · intro _; rfl
  refine ⟨hbooks.1, hbooks.2, ?_⟩
  unfold get_genres at hG
  simp only [Bool.false_eq_true, if_false] at hG
  rcases hloop : genresLoop pagesG hasNext fuelG 1 [] with _ | r
  · rw [hloop] at hG; exact absurd hG (by simp)
  · rw [hloop] at hG
    cases hG
    rfl

theorem cache_write_policy_witness :
    (get_books_for_genre (fun _ => []) none false none none 1 =
      some { books := [], cacheWrite := none, fetchedPages := [1] }) ∧
    (get_genres (fun _ => ["a"]) (fun _ => false) none false 1 =
      some { genres := ["a"], cacheWrite := some ["a"], fetchedPages := [1] }) ∧
    (((none : Option (List Book)) ≠ none → false = true ∧ (none : Option String) = none ∧
        (none : Option (List Book)) = some []) ∧
      (false = false → (none : Option (List Book)) = none) ∧
      (some ["a"] : Option (List String)) = some ["a"]) := by
  refine ⟨rfl, rfl, ?_⟩
  exact cache_write_policy (fun _ => []) none false none none 1
    { books := [], cacheWrite := none, fetchedPages := [1] }
    (fun _ => ["a"]) (fun _ => false) none 1
    { genres := ["a"], cacheWrite := some ["a"], fetchedPages := [1] } rfl rfl

/-- C3 counterexample: a genre-list run where page 1 extracts zero records
but reports a next page does NOT stop at page 1: it fetches page 2 and
returns page 2's records.  (The `get_genres` loop has no empty-page stop; it
stops only when `_has_next_page` is false.) -/
theorem genres_empty_page_continues_counterexample :
    get_genres (fun p => if p = 1 then [] else ["g"]) (fun p => p == 1) none false 2 =
      some { genres := ["g"], cacheWrite := some ["g"], fetchedPages := [1, 2] } ∧
    (["g"] : List String) ≠ [] ∧ ([1, 2] : List Nat) ≠ [1] :=
  ⟨rfl, by decide, by decide⟩

/-- C3 amended: the two loops are NOT identical on zero-record pages.  The
books-for-genre loop stops at a zero-record page as a natural (non-error) end
returning what was accumulated; the genre-list loop instead ignores the empty
extraction and continues to the next page whenever a next page is reported. -/
theorem empty_page_stop_policy (pagesB : Nat → List Book) (mp : Option Nat)
    (st : BooksLoopState) (pagesG : Nat → List String) (hasNext : Nat → Bool)
    (acc : List String) (pageB pageG fuelB fuelG : Nat)
    (hcap : capExceeded mp pageB = false) (hB : pagesB pageB = [])
    (hG : pagesG pageG = []) (hnext : hasNext pageG = true) :
    booksLoop pagesB mp (fuelB + 1) pageB st =
      some { books := st.books, reason := .emptyPage, fetchedPages := [pageB] } ∧
    genresLoop pagesG hasNext (fuelG + 1) pageG acc =
      (genresLoop pagesG hasNext fuelG (pageG + 1) acc).map (fun r => (r.1, pageG :: r.2)) := by
  constructor
  · conv_lhs => unfold booksLoop
    simp [hcap, hB]
  · conv_lhs => unfold genresLoop
    simp only [hG, List.append_nil, hnext, if_true]
    cases genresLoop pagesG hasNext fuelG (pageG + 1) acc <;> simp

theorem empty_page_stop_policy_witness :
    (capExceeded none 1 = false ∧ (fun _ : Nat => ([] : List Book)) 1 = [] ∧
      (fun _ : Nat => ([] : List String)) 1 = [] ∧ (fun _ : Nat => true) 1 = true) ∧
    booksLoop (fun _ => []) none 1 1 { books := [], seenKeys := [], seenSigs := [] } =
      some { books := [], reason := .emptyPage, fetchedPages := [1] } ∧
    genresLoop (fun _ => []) (fun _ => true) 1 1 [] =
      (genresLoop (fun _ => []) (fun _ => true) 0 2 []).map (fun r => (r.1, 1 :: r.2)) :=
  ⟨⟨rfl, rfl, rfl, rfl⟩,
    (empty_page_stop_policy (fun _ => []) none ⟨[], [], []⟩ (fun _ => []) (fun _ => true)
      [] 1 1 0 0 rfl rfl rfl rfl).1,
    (empty_page_stop_policy (fun _ => []) none ⟨[], [], []⟩ (fun _ => []) (fun _ => true)
      [] 1 1 0 0 rfl rfl rfl rfl).2⟩

/-! ## Deduplication and pagination-loop lemmas (C4, C5, C6) -/

theorem addBooks_spec (l : List Book) : ∀ st : BooksLoopState, addBooks st l =
    ({ books := st.books ++ dedupByKey st.seenKeys l,
       seenKeys := ((dedupByKey st.seenKeys l).map bookKey).reverse ++ st.seenKeys,
       seenSigs := st.seenSigs }, (dedupByKey st.seenKeys l).length) := by
  induction l with
  | nil => intro st; simp [addBooks, dedupByKey]
  | cons b rest ih =>
    intro st
    by_cases h : bookKey b ∈ st.seenKeys
    · simp [addBooks, dedupByKey, h, ih]
    · simp [addBooks, dedupByKey, h, ih, List.append_assoc]

theorem dedupByKey_append (l1 : List Book) : ∀ (s : List BookKey) (l2 : List Book),
    dedupByKey s (l1 ++ l2) =
      dedupByKey s l1 ++
        dedupByKey (((dedupByKey s l1).map bookKey).reverse ++ s) l2 := by
  induction l1 with
  | nil => intro s l2; simp [dedupByKey]
  | cons b rest ih =>
    intro s l2
    by_cases h : bookKey b ∈ s
    · simp [dedupByKey, h, ih]
    · have e1 : (b :: rest) ++ l2 = b :: (rest ++ l2) := rfl
      rw [e1]
      rw [dedupByKey, if_neg h, dedupByKey, if_neg h]
      rw [ih (bookKey b :: s)]
      simp [List.append_assoc]

theorem dedupByKey_not_mem_seen (l : List Book) : ∀ (s : List BookKey) (b : Book),
    b ∈ dedupByKey s l → bookKey b ∉ s := by
  induction l with
  | nil => intro s b hb; simp [dedupByKey] at hb
  | cons x rest ih =>
    intro s b hb
    by_cases h : bookKey x ∈ s
    · rw [dedupByKey, if_pos h] at hb
      exact ih s b hb
    · rw [dedupByKey, if_neg h] at hb
      rcases List.mem_cons.mp hb with hb | hb
      · subst hb; exact h
      · intro hmem
        exact ih _ b hb (List.mem_cons_of_mem _ hmem)

theorem dedupByKey_pairwise (l : List Book) : ∀ s : List BookKey,
    (dedupByKey s l).Pairwise (fun a b => bookKey a ≠ bookKey b) := by
  induction l with
  | nil => intro s; simp [dedupByKey]
  | cons x rest ih =>
    intro s
    by_cases h : bookKey x ∈ s
    · rw [dedupByKey, if_pos h]; exact ih s
    · rw [dedupByKey, if_neg h]
      refine List.Pairwise.cons ?_ (ih _)
      intro b hb heq
      have := dedupByKey_not_mem_seen rest _ b hb
      exact this (by rw [← heq]; exact List.mem_cons_self _ _)

theorem dedupByKey_sublist (l : List Book) : ∀ s, List.Sublist (dedupByKey s l) l := by
  induction l with
  | nil => intro s; simp [dedupByKey]
  | cons x rest ih =>
    intro s
    by_cases h : bookKey x ∈ s
    · rw [dedupByKey, if_pos h]; exact (ih s).cons x
    · rw [dedupByKey, if_neg h]; exact (ih _).cons₂ x

theorem dedupByKey_eq_nil_iff (l : List Book) : ∀ s,
    dedupByKey s l = [] ↔ ∀ b ∈ l, bookKey b ∈ s := by
  induction l with
  | nil => intro s; simp [dedupByKey]
  | cons x rest ih =>
    intro s
    by_cases h : bookKey x ∈ s
    · rw [dedupByKey, if_pos h, ih]
      simp [h]
    · rw [dedupByKey, if_neg h]
      simp [h]

theorem dedupByKey_eq_self (l : List Book) : ∀ s,
    (l.map bookKey).Nodup → (∀ b ∈ l, bookKey b ∉ s) → dedupByKey s l = l := by
  induction l with
  | nil => intro s _ _; simp [dedupByKey]
  | cons x rest ih =>
    intro s hnd hs
    rw [dedupByKey, if_neg (hs x (List.mem_cons_self _ _))]
    rw [List.map_cons, List.nodup_cons] at hnd
    congr 1
    refine ih _ hnd.2 ?_
    intro b hb
    simp only [List.mem_cons, not_or]
    constructor
    · intro heq
      exact hnd.1 (heq ▸ List.mem_map_of_mem bookKey hb)
    · exact hs b (List.mem_cons_of_mem _ hb)



theorem booksLoop_stop_on_cap (pages : Nat → List Book) (mp : Option Nat)
    (fuel page : Nat) (st : BooksLoopState) (hcap : capExceeded mp page = true) :
    booksLoop pages mp (fuel + 1) page st =
      some { books := st.books, reason := .maxPagesCap, fetchedPages := [] } := by
  conv_lhs => unfold booksLoop
  simp [hcap]

theorem booksLoop_stop_on_repeat (pages : Nat → List Book) (mp : Option Nat)
    (fuel page : Nat) (st : BooksLoopState)
    (hcap : capExceeded mp page = false) (hne : pages page ≠ [])
    (hsig : (pages page).map bookKey ∈ st.seenSigs) :
    booksLoop pages mp (fuel + 1) page st =
      some { books := st.books, reason := .repeatedSignature, fetchedPages := [page] } := by
  conv_lhs => unfold booksLoop
  simp [hcap, hne, hsig, List.isEmpty_iff]

theorem booksLoop_step_productive (pages : Nat → List Book) (mp : Option Nat)
    (fuel page : Nat) (st : BooksLoopState)
    (hcap : capExceeded mp page = false) (hne : pages page ≠ [])
    (hsig : (pages page).map bookKey ∉ st.seenSigs)
    (hadd : dedupByKey st.seenKeys (pages page) ≠ []) :
    booksLoop pages mp (fuel + 1) page st =
      (booksLoop pages mp fuel (page + 1)
        { books := st.books ++ dedupByKey st.seenKeys (pages page),
          seenKeys := ((dedupByKey st.seenKeys (pages page)).map bookKey).reverse ++ st.seenKeys,
          seenSigs := (pages page).map bookKey :: st.seenSigs }).map
        (fun out => { out with fetchedPages := page :: out.fetchedPages }) := by
  conv_lhs => unfold booksLoop
  rw [if_neg (by simp [hcap]), if_neg (by simp [List.isEmpty_iff, hne]), if_neg hsig]
  rw [addBooks_spec]
  simp only [List.length_eq_zero, hadd, if_neg, ite_false, if_false]
  cases booksLoop pages mp fuel (page + 1)
      { books := st.books ++ dedupByKey st.seenKeys (pages page),
        seenKeys := ((dedupByKey st.seenKeys (pages page)).map bookKey).reverse ++ st.seenKeys,
        seenSigs := (pages page).map bookKey :: st.seenSigs } <;> simp



theorem booksLoop_stop_on_empty (pages : Nat → List Book) (mp : Option Nat)
    (fuel page : Nat) (st : BooksLoopState)
    (hcap : capExceeded mp page = false) (hne : pages page = []) :
    booksLoop pages mp (fuel + 1) page st =
      some { books := st.books, reason := .emptyPage, fetchedPages := [page] } := by
  conv_lhs => unfold booksLoop
  simp [hcap, hne]

theorem booksLoop_stop_on_no_new (pages : Nat → List Book) (mp : Option Nat)
    (fuel page : Nat) (st : BooksLoopState)
    (hcap : capExceeded mp page = false) (hne : pages page ≠ [])
    (hsig : (pages page).map bookKey ∉ st.seenSigs)
    (hadd : dedupByKey st.seenKeys (pages page) = []) :
    booksLoop pages mp (fuel + 1) page st =
      some { books := st.books, reason := .noNewBooks, fetchedPages := [page] } := by
  conv_lhs => unfold booksLoop
  rw [if_neg (by simp [hcap]), if_neg (by simp [List.isEmpty_iff, hne]), if_neg hsig]
  rw [addBooks_spec]
  simp [hadd]

theorem booksLoop_books_eq (pages : Nat → List Book) (mp : Option Nat) :
    ∀ (fuel page : Nat) (pre : List Book) (sigs : List (List BookKey)) (out : BooksRunOut),
    booksLoop pages mp fuel page
      { books := dedupByKey [] pre,
        seenKeys := ((dedupByKey [] pre).map bookKey).reverse,
        seenSigs := sigs } = some out →
    ∃ n, out.books = dedupByKey [] (pre ++ pagesConcat pages page n) := by
  intro fuel
  induction fuel with
  | zero =>
    intro page pre sigs out h
    exact absurd h (by simp [booksLoop])
  | succ fuel ih =>
    intro page pre sigs out h
    by_cases hcap : capExceeded mp page = true
    · rw [booksLoop_stop_on_cap pages mp fuel page _ hcap] at h
      cases h
      exact ⟨0, by simp [pagesConcat]⟩
    · rw [Bool.not_eq_true] at hcap
      by_cases hne : pages page = []
      · rw [booksLoop_stop_on_empty pages mp fuel page _ hcap hne] at h
        cases h
        exact ⟨0, by simp [pagesConcat]⟩
      · by_cases hsig : (pages page).map bookKey ∈ sigs
        · rw [booksLoop_stop_on_repeat pages mp fuel page _ hcap hne hsig] at h
          cases h
          exact ⟨0, by simp [pagesConcat]⟩
        · have hseen : ((dedupByKey [] pre).map bookKey).reverse =
              ((dedupByKey [] pre).map bookKey).reverse ++ [] := by simp
          by_cases hadd : dedupByKey ((dedupByKey [] pre).map bookKey).reverse (pages page) = []
          · rw [booksLoop_stop_on_no_new pages mp fuel page _ hcap hne hsig hadd] at h
            cases h
            exact ⟨0, by simp [pagesConcat]⟩
          · rw [booksLoop_step_productive pages mp fuel page _ hcap hne hsig hadd] at h
            have hkey : dedupByKey [] (pre ++ pages page) =
                dedupByKey [] pre ++
                  dedupByKey ((dedupByKey [] pre).map bookKey).reverse (pages page) := by
              rw [dedupByKey_append]
              simp
            rcases hrec : booksLoop pages mp fuel (page + 1)
                { books := dedupByKey [] pre ++
                    dedupByKey ((dedupByKey [] pre).map bookKey).reverse (pages page),
                  seenKeys := ((dedupByKey ((dedupByKey [] pre).map bookKey).reverse
                    (pages page)).map bookKey).reverse ++
                    ((dedupByKey [] pre).map bookKey).reverse,
                  seenSigs := (pages page).map bookKey :: sigs } with _ | out'
            · rw [hrec] at h
              exact absurd h (by simp)
            · rw [hrec] at h
              rw [Option.map_some'] at h
              cases h
              have hform : booksLoop pages mp fuel (page + 1)
                  { books := dedupByKey [] (pre ++ pages page),
                    seenKeys := ((dedupByKey [] (pre ++ pages page)).map bookKey).reverse,
                    seenSigs := (pages page).map bookKey :: sigs } = some out' := by
                rw [hkey]
                rw [show ((dedupByKey [] pre ++
                    dedupByKey ((dedupByKey [] pre).map bookKey).reverse (pages page)).map
                      bookKey).reverse =
                    ((dedupByKey ((dedupByKey [] pre).map bookKey).reverse
                      (pages page)).map bookKey).reverse ++
                      ((dedupByKey [] pre).map bookKey).reverse by simp]
                exact hrec
              rcases ih (page + 1) (pre ++ pages page) ((pages page).map bookKey :: sigs)
                  out' hform with ⟨n, hn⟩
              refine ⟨n + 1, ?_⟩
              simp only [List.map_map]
              rw [hn, pagesConcat, List.append_assoc]



theorem dedup_nil_ne_nil (l : List Book) (h : l ≠ []) : dedupByKey [] l ≠ [] := by
  intro hcontra
  rw [dedupByKey_eq_nil_iff] at hcontra
  rcases List.exists_cons_of_ne_nil h with ⟨a, t, rfl⟩
  exact absurd (hcontra a (List.mem_cons_self _ _)) (List.not_mem_nil _)

theorem repeated_signature_stops (pages : Nat → List Book) (mp : Option Nat)
    (P1 P2 : List Book) (fuel : Nat)
    (hp1 : pages 1 = P1) (hp2 : pages 2 = P2) (hp3 : pages 3 = P2)
    (hcap : ∀ p, p ≤ 3 → capExceeded mp p = false)
    (h1 : P1 ≠ []) (h2 : P2 ≠ [])
    (hsig : P1.map bookKey ≠ P2.map bookKey)
    (hnew : ∃ b ∈ P2, bookKey b ∉ (dedupByKey [] P1).map bookKey) :
    booksLoop pages mp (fuel + 3) 1 { books := [], seenKeys := [], seenSigs := [] } =
      some { books := dedupByKey [] (P1 ++ P2), reason := .repeatedSignature,
             fetchedPages := [1, 2, 3] } := by
  have hcap1 : capExceeded mp 1 = false := hcap 1 (by omega)
  have hcap2 : capExceeded mp 2 = false := hcap 2 (by omega)
  have hcap3 : capExceeded mp 3 = false := hcap 3 (by omega)
  have hne1 : pages 1 ≠ [] := by rw [hp1]; exact h1
  have hne2 : pages 2 ≠ [] := by rw [hp2]; exact h2
  have hne3 : pages 3 ≠ [] := by rw [hp3]; exact h2
  have hd1 : dedupByKey [] (pages 1) ≠ [] := by
    rw [hp1]; exact dedup_nil_ne_nil P1 h1
  have hd2 : dedupByKey ((dedupByKey [] P1).map bookKey).reverse (pages 2) ≠ [] := by
    rw [hp2]
    intro hcontra
    rw [dedupByKey_eq_nil_iff] at hcontra
    rcases hnew with ⟨b, hb, hkey⟩
    exact hkey (List.mem_reverse.mp (hcontra b hb))
  have e1 : booksLoop pages mp (fuel + 3) 1 { books := [], seenKeys := [], seenSigs := [] } =
      (booksLoop pages mp (fuel + 2) 2
        { books := dedupByKey [] P1,
          seenKeys := ((dedupByKey [] P1).map bookKey).reverse,
          seenSigs := [P1.map bookKey] }).map
        (fun out => { out with fetchedPages := 1 :: out.fetchedPages }) := by
    have h := booksLoop_step_productive pages mp (fuel + 2) 1
      { books := [], seenKeys := [], seenSigs := [] } hcap1 hne1 (by simp) hd1
    simpa [hp1] using h
  have e2 : booksLoop pages mp (fuel + 2) 2
      { books := dedupByKey [] P1,
        seenKeys := ((dedupByKey [] P1).map bookKey).reverse,
        seenSigs := [P1.map bookKey] } =
      (booksLoop pages mp (fuel + 1) 3
        { books := dedupByKey [] P1 ++ dedupByKey ((dedupByKey [] P1).map bookKey).reverse P2,
          seenKeys := ((dedupByKey ((dedupByKey [] P1).map bookKey).reverse P2).map bookKey).reverse ++
            ((dedupByKey [] P1).map bookKey).reverse,
          seenSigs := [P2.map bookKey, P1.map bookKey] }).map
        (fun out => { out with fetchedPages := 2 :: out.fetchedPages }) := by
    have hsig2 : (pages 2).map bookKey ∉
        ({ books := dedupByKey [] P1,
           seenKeys := ((dedupByKey [] P1).map bookKey).reverse,
           seenSigs := [P1.map bookKey] } : BooksLoopState).seenSigs := by
      rw [hp2]
      simp only [List.mem_singleton]
      exact fun hcontra => hsig hcontra.symm
    have h := booksLoop_step_productive pages mp (fuel + 1) 2
      { books := dedupByKey [] P1,
        seenKeys := ((dedupByKey [] P1).map bookKey).reverse,
        seenSigs := [P1.map bookKey] } hcap2 hne2 hsig2 hd2
    simpa [hp2] using h
  have e3 : booksLoop pages mp (fuel + 1) 3
      { books := dedupByKey [] P1 ++ dedupByKey ((dedupByKey [] P1).map bookKey).reverse P2,
        seenKeys := ((dedupByKey ((dedupByKey [] P1).map bookKey).reverse P2).map bookKey).reverse ++
          ((dedupByKey [] P1).map bookKey).reverse,
        seenSigs := [P2.map bookKey, P1.map bookKey] } =
      some { books := dedupByKey [] P1 ++ dedupByKey ((dedupByKey [] P1).map bookKey).reverse P2,
             reason := .repeatedSignature, fetchedPages := [3] } := by
    apply booksLoop_stop_on_repeat pages mp fuel 3 _ hcap3 hne3
    rw [hp3]
    simp
  rw [e1, e2, e3]
  have hbooks : dedupByKey [] (P1 ++ P2) =
      dedupByKey [] P1 ++ dedupByKey ((dedupByKey [] P1).map bookKey).reverse P2 := by
    rw [dedupByKey_append]
    simp
  simp [hbooks]



theorem max_pages_cap_two (pages : Nat → List Book) (P1 P2 : List Book) (fuel : Nat)
    (uc : Bool) (dump : Option String)
    (hp1 : pages 1 = P1) (hp2 : pages 2 = P2)
    (h1 : P1 ≠ []) (h2 : P2 ≠ [])
    (hnodup : ((P1 ++ P2).map bookKey).Nodup) :
    booksLoop pages (some 2) (fuel + 3) 1 { books := [], seenKeys := [], seenSigs := [] } =
      some { books := P1 ++ P2, reason := .maxPagesCap, fetchedPages := [1, 2] } ∧
    booksRun pages uc (some 2) dump (fuel + 3) =
      some { books := P1 ++ P2,
             cacheWrite := if uc && dump.isNone then some (P1 ++ P2) else none,
             fetchedPages := [1, 2] } := by
  have hdisj : List.Disjoint (P1.map bookKey) (P2.map bookKey) := by
    rw [List.map_append, List.nodup_append] at hnodup
    exact hnodup.2.2
  have hcap1 : capExceeded (some 2) 1 = false := rfl
  have hcap2 : capExceeded (some 2) 2 = false := rfl
  have hcap3 : capExceeded (some 2) 3 = true := rfl
  have hne1 : pages 1 ≠ [] := by rw [hp1]; exact h1
  have hne2 : pages 2 ≠ [] := by rw [hp2]; exact h2
  have hd1 : dedupByKey [] (pages 1) ≠ [] := by
    rw [hp1]; exact dedup_nil_ne_nil P1 h1
  have hsub : ∀ k, k ∈ (dedupByKey [] P1).map bookKey → k ∈ P1.map bookKey := by
    intro k hk
    rcases List.mem_map.mp hk with ⟨b, hb, rfl⟩
    exact List.mem_map_of_mem bookKey ((dedupByKey_sublist P1 []).mem hb)
  have hd2 : dedupByKey ((dedupByKey [] P1).map bookKey).reverse (pages 2) ≠ [] := by
    rw [hp2]
    intro hcontra
    rw [dedupByKey_eq_nil_iff] at hcontra
    rcases List.exists_cons_of_ne_nil h2 with ⟨b, t, hP⟩
    have hb : b ∈ P2 := hP ▸ List.mem_cons_self _ _
    have := hsub _ (List.mem_reverse.mp (hcontra b hb))
    exact hdisj this (List.mem_map_of_mem bookKey hb)
  have hsig2 : (pages 2).map bookKey ∉
      ({ books := dedupByKey [] P1,
         seenKeys := ((dedupByKey [] P1).map bookKey).reverse,
         seenSigs := [P1.map bookKey] } : BooksLoopState).seenSigs := by
    rw [hp2]
    simp only [List.mem_singleton]
    intro hcontra
    rcases List.exists_cons_of_ne_nil h2 with ⟨b, t, hP⟩
    have hb : b ∈ P2 := hP ▸ List.mem_cons_self _ _
    have hmem2 : bookKey b ∈ P2.map bookKey := List.mem_map_of_mem bookKey hb
    have hmem1 : bookKey b ∈ P1.map bookKey := by rw [← hcontra]; exact hmem2
    exact hdisj hmem1 hmem2
  have hclean1 : dedupByKey [] P1 = P1 := by
    refine dedupByKey_eq_self P1 [] ?_ (by simp)
    rw [List.map_append, List.nodup_append] at hnodup
    exact hnodup.1
  have hclean2 : dedupByKey ((dedupByKey [] P1).map bookKey).reverse P2 = P2 := by
    refine dedupByKey_eq_self P2 _ ?_ ?_
    · rw [List.map_append, List.nodup_append] at hnodup
      exact hnodup.2.1
    · intro b hb hmem
      exact hdisj (hsub _ (List.mem_reverse.mp hmem)) (List.mem_map_of_mem bookKey hb)
  have e1 : booksLoop pages (some 2) (fuel + 3) 1 { books := [], seenKeys := [], seenSigs := [] } =
      (booksLoop pages (some 2) (fuel + 2) 2
        { books := dedupByKey [] P1,
          seenKeys := ((dedupByKey [] P1).map bookKey).reverse,
          seenSigs := [P1.map bookKey] }).map
        (fun out => { out with fetchedPages := 1 :: out.fetchedPages }) := by
    have h := booksLoop_step_productive pages (some 2) (fuel + 2) 1
      { books := [], seenKeys := [], seenSigs := [] } hcap1 hne1 (by simp) hd1
    simpa [hp1] using h
  have e2 : booksLoop pages (some 2) (fuel + 2) 2
      { books := dedupByKey [] P1,
        seenKeys := ((dedupByKey [] P1).map bookKey).reverse,
        seenSigs := [P1.map bookKey] } =
      (booksLoop pages (some 2) (fuel + 1) 3
        { books := dedupByKey [] P1 ++ dedupByKey ((dedupByKey [] P1).map bookKey).reverse P2,
          seenKeys := ((dedupByKey ((dedupByKey [] P1).map bookKey).reverse P2).map bookKey).reverse ++
            ((dedupByKey [] P1).map bookKey).reverse,
          seenSigs := [P2.map bookKey, P1.map bookKey] }).map
        (fun out => { out with fetchedPages := 2 :: out.fetchedPages }) := by
    have h := booksLoop_step_productive pages (some 2) (fuel + 1) 2
      { books := dedupByKey [] P1,
        seenKeys := ((dedupByKey [] P1).map bookKey).reverse,
        seenSigs := [P1.map bookKey] } hcap2 hne2 hsig2 hd2
    simpa [hp2] using h
  have e3 : booksLoop pages (some 2) (fuel + 1) 3
      { books := dedupByKey [] P1 ++ dedupByKey ((dedupByKey [] P1).map bookKey).reverse P2,
        seenKeys := ((dedupByKey ((dedupByKey [] P1).map bookKey).reverse P2).map bookKey).reverse ++
          ((dedupByKey [] P1).map bookKey).reverse,
        seenSigs := [P2.map bookKey, P1.map bookKey] } =
      some { books := dedupByKey [] P1 ++ dedupByKey ((dedupByKey [] P1).map bookKey).reverse P2,
             reason := .maxPagesCap, fetchedPages := [] } := by
    rw [show fuel + 1 = fuel + 1 from rfl]
    exact booksLoop_stop_on_cap pages (some 2) fuel 3 _ hcap3
  have hloop : booksLoop pages (some 2) (fuel + 3) 1 { books := [], seenKeys := [], seenSigs := [] } =
      some { books := P1 ++ P2, reason := .maxPagesCap, fetchedPages := [1, 2] } := by
    rw [e1, e2, e3, Option.map_some', Option.map_some', hclean2, hclean1]
  refine ⟨hloop, ?_⟩
  unfold booksRun
  rw [hloop]

/-- C5: any list returned by the books-for-genre fetch path has pairwise
distinct identity keys, and equals the first-occurrence dedup of the
concatenation of the extracted pages in page order. -/
theorem books_dedup_invariant (pages : Nat → List Book) (uc : Bool) (mp : Option Nat)
    (dump : Option String) (fuel : Nat) (res : BooksResult)
    (h : booksRun pages uc mp dump fuel = some res) :
    res.books.Pairwise (fun a b => bookKey a ≠ bookKey b) ∧
    ∃ n, res.books = dedupByKey [] (pagesConcat pages 1 n) := by
  unfold booksRun at h
  rcases hloop : booksLoop pages mp fuel 1 { books := [], seenKeys := [], seenSigs := [] }
    with _ | out
  · rw [hloop] at h
    exact absurd h (by simp)
  · rw [hloop] at h
    cases h
    have h0 : booksLoop pages mp fuel 1
        { books := dedupByKey [] [],
          seenKeys := ((dedupByKey [] ([] : List Book)).map bookKey).reverse,
          seenSigs := [] } = some out := by
      simpa [dedupByKey] using hloop
    rcases booksLoop_books_eq pages mp fuel 1 [] [] out h0 with ⟨n, hn⟩
    rw [List.nil_append] at hn
    constructor
    · have hp : out.books.Pairwise (fun a b => bookKey a ≠ bookKey b) := by
        rw [hn]; exact dedupByKey_pairwise _ []
      exact hp
    · exact ⟨n, hn⟩

theorem books_dedup_invariant_witness :
    booksRun (fun p => if p = 1 then [cexBook, cexBook] else []) false none none 2 =
      some { books := [cexBook], cacheWrite := none, fetchedPages := [1, 2] } ∧
    (([cexBook] : List Book).Pairwise (fun a b => bookKey a ≠ bookKey b) ∧
      ∃ n, ([cexBook] : List Book) =
        dedupByKey [] (pagesConcat (fun p => if p = 1 then [cexBook, cexBook] else []) 1 n)) :=
  ⟨rfl,
    books_dedup_invariant (fun p => if p = 1 then [cexBook, cexBook] else []) false none none 2
      { books := [cexBook], cacheWrite := none, fetchedPages := [1, 2] } rfl⟩

theorem repeated_signature_stops_witness :
    ((fun p : Nat => if p = 1 then [cexBook] else [cexBook2]) 1 = [cexBook] ∧
      ([cexBook] : List Book) ≠ [] ∧ ([cexBook2] : List Book) ≠ [] ∧
      [cexBook].map bookKey ≠ [cexBook2].map bookKey ∧
      (∃ b ∈ [cexBook2], bookKey b ∉ (dedupByKey [] [cexBook]).map bookKey)) ∧
    booksLoop (fun p => if p = 1 then [cexBook] else [cexBook2]) none 3 1
        { books := [], seenKeys := [], seenSigs := [] } =
      some { books := dedupByKey [] ([cexBook] ++ [cexBook2]),
             reason := .repeatedSignature, fetchedPages := [1, 2, 3] } :=
  ⟨⟨rfl, by decide, by decide, by decide, by decide⟩,
    repeated_signature_stops (fun p => if p = 1 then [cexBook] else [cexBook2]) none
      [cexBook] [cexBook2] 0 rfl rfl rfl (fun _ _ => rfl) (by decide) (by decide)
      (by decide) (by decide)⟩

theorem max_pages_cap_two_witness :
    (([cexBook] : List Book) ≠ [] ∧ ([cexBook2] : List Book) ≠ [] ∧
      ((([cexBook] ++ [cexBook2]).map bookKey).Nodup)) ∧
    booksLoop (fun p => if p = 1 then [cexBook] else [cexBook2]) (some 2) 3 1
        { books := [], seenKeys := [], seenSigs := [] } =
      some { books := [cexBook] ++ [cexBook2], reason := .maxPagesCap,
             fetchedPages := [1, 2] } ∧
    booksRun (fun p => if p = 1 then [cexBook] else [cexBook2]) true (some 2) none 3 =
      some { books := [cexBook] ++ [cexBook2],
             cacheWrite := if true && (none : Option String).isNone
               then some ([cexBook] ++ [cexBook2]) else none,
             fetchedPages := [1, 2] } :=
  ⟨⟨by decide, by decide, by decide⟩,
    (max_pages_cap_two (fun p => if p = 1 then [cexBook] else [cexBook2]) [cexBook] [cexBook2]
      0 true none rfl rfl (by decide) (by decide) (by decide)).1,
    (max_pages_cap_two (fun p => if p = 1 then [cexBook] else [cexBook2]) [cexBook] [cexBook2]
      0 true none rfl rfl (by decide) (by decide) (by decide)).2⟩

/-! ## The slug round-trip (C8) -/

theorem char_toNat_ofNat {n : Nat} (h : n < 55296) : (Char.ofNat n).toNat = n := by
  have hv : n.isValidChar := Or.inl h
  rw [Char.ofNat, dif_pos hv]
  rfl

theorem char_eq_of_toNat_eq {a b : Char} (h : a.toNat = b.toNat) : a = b :=
  Char.ext (UInt32.ext h)

theorem slug_toNat (c : Char) (h : isSlugChar c = true) :
    (97 ≤ c.toNat ∧ c.toNat ≤ 122) ∨ (48 ≤ c.toNat ∧ c.toNat ≤ 57) := by
  simp only [isSlugChar, Bool.or_eq_true, Bool.and_eq_true, decide_eq_true_eq] at h
  rcases h with ⟨h1, h2⟩ | ⟨h1, h2⟩
  · rw [Char.le_def] at h1 h2
    exact Or.inl ⟨h1, h2⟩
  · rw [Char.le_def] at h1 h2
    exact Or.inr ⟨h1, h2⟩

theorem toLower_eq_self_of_slug (c : Char) (h : isSlugChar c = true) :
    Char.toLower c = c := by
  rw [Char.toLower, if_neg]
  rcases slug_toNat c h with ⟨h1, h2⟩ | ⟨h1, h2⟩ <;> omega

theorem toLower_toUpper_of_slug (c : Char) (h : isSlugChar c = true) :
    Char.toLower (Char.toUpper c) = c := by
  rcases slug_toNat c h with ⟨h1, h2⟩ | ⟨h1, h2⟩
  · rw [Char.toUpper, if_pos (by omega)]
    rw [Char.toLower, if_pos (by rw [char_toNat_ofNat (by omega)]; omega)]
    rw [char_toNat_ofNat (by omega)]
    apply char_eq_of_toNat_eq
    rw [char_toNat_ofNat (by omega)]
    omega
  · rw [Char.toUpper, if_neg (by omega)]
    rw [Char.toLower, if_neg (by omega)]

theorem toUpper_toNat_of_slug (c : Char) (h : isSlugChar c = true) :
    (65 ≤ (Char.toUpper c).toNat ∧ (Char.toUpper c).toNat ≤ 90) ∨
    (48 ≤ (Char.toUpper c).toNat ∧ (Char.toUpper c).toNat ≤ 57) := by
  rcases slug_toNat c h with ⟨h1, h2⟩ | ⟨h1, h2⟩
  · rw [Char.toUpper, if_pos (by omega)]
    rw [char_toNat_ofNat (by omega)]
    omega
  · rw [Char.toUpper, if_neg (by omega)]
    omega

theorem isSpace_eq_false_of_toNat {c : Char}
    (h : (65 ≤ c.toNat ∧ c.toNat ≤ 90) ∨ (48 ≤ c.toNat ∧ c.toNat ≤ 122)) :
    isSpace c = false := by
  simp only [isSpace, Bool.or_eq_false_iff, decide_eq_false_iff_not]
  refine ⟨⟨⟨⟨⟨?_, ?_⟩, ?_⟩, ?_⟩, ?_⟩, ?_⟩ <;>
    · intro he
      rw [he] at h
      revert h
      decide

theorem slug_isSpace_false (c : Char) (h : isSlugChar c = true) : isSpace c = false := by
  apply isSpace_eq_false_of_toNat
  rcases slug_toNat c h with ⟨h1, h2⟩ | ⟨h1, h2⟩ <;> omega

theorem slug_isWordSep_false (c : Char) (h : isSlugChar c = true) : isWordSep c = false := by
  rw [isWordSep, slug_isSpace_false c h]
  simp only [Bool.false_or, Bool.or_eq_false_iff, decide_eq_false_iff_not]
  constructor <;>
    · intro he
      rw [he] at h
      revert h
      decide

theorem slug_keepChar (c : Char) (h : isSlugChar c = true) : keepChar c = true := by
  simp only [isSlugChar, Bool.or_eq_true] at h
  simp only [keepChar, Bool.or_eq_true]
  tauto

theorem slug_ne_hyphen (c : Char) (h : isSlugChar c = true) : c ≠ '-' := by
  intro he
  rw [he] at h
  revert h
  decide

theorem toUpper_isSpace_false (c : Char) (h : isSlugChar c = true) :
    isSpace (Char.toUpper c) = false := by
  apply isSpace_eq_false_of_toNat
  rcases toUpper_toNat_of_slug c h with ⟨h1, h2⟩ | ⟨h1, h2⟩ <;> omega



theorem dropWhile_eq_self_of_head {p : Char → Bool} (l : List Char)
    (h : ∀ c, l.head? = some c → p c = false) : l.dropWhile p = l := by
  cases l with
  | nil => rfl
  | cons c cs =>
    rw [List.dropWhile_cons, if_neg]
    rw [h c rfl]
    simp

theorem stripEnds_eq_self {p : Char → Bool} (l : List Char)
    (hh : ∀ c, l.head? = some c → p c = false)
    (hl : ∀ c, l.getLast? = some c → p c = false) :
    ((l.dropWhile p).reverse.dropWhile p).reverse = l := by
  rw [dropWhile_eq_self_of_head l hh]
  rw [dropWhile_eq_self_of_head l.reverse ?_]
  · exact List.reverse_reverse l
  · intro c hc
    rw [List.head?_reverse] at hc
    exact hl c hc

theorem stripL_eq_self (l : List Char)
    (hh : ∀ c, l.head? = some c → isSpace c = false)
    (hl : ∀ c, l.getLast? = some c → isSpace c = false) :
    stripL l = l :=
  stripEnds_eq_self l hh hl

theorem stripL_eq_self_of_all (l : List Char)
    (h : ∀ c ∈ l, isSpace c = false) : stripL l = l :=
  stripL_eq_self l (fun c hc => h c (List.mem_of_mem_head? hc))
    (fun c hc => h c (List.mem_of_getLast?_eq_some hc))

theorem stripHyphens_eq_self (l : List Char)
    (hh : ∀ c, l.head? = some c → c ≠ '-')
    (hl : ∀ c, l.getLast? = some c → c ≠ '-') :
    stripHyphens l = l := by
  refine stripEnds_eq_self l ?_ ?_
  · intro c hc
    simpa using hh c hc
  · intro c hc
    simpa using hl c hc

theorem splitSepAux_mem_subset : ∀ (l acc t : List Char), t ∈ splitSepAux l acc →
    ∀ c ∈ t, c ∈ acc ∨ c ∈ l := by
  intro l
  induction l with
  | nil =>
    intro acc t ht c hc
    rw [splitSepAux] at ht
    by_cases hacc : acc.isEmpty
    · rw [if_pos hacc] at ht
      exact absurd ht (List.not_mem_nil t)
    · rw [if_neg hacc] at ht
      rcases List.mem_singleton.mp ht with rfl
      exact Or.inl (List.mem_reverse.mp hc)
  | cons a l ih =>
    intro acc t ht c hc
    rw [splitSepAux] at ht
    by_cases hsep : isWordSep a
    · rw [if_pos hsep] at ht
      by_cases hacc : acc.isEmpty
      · rw [if_pos hacc] at ht
        rcases ih [] t ht c hc with h | h
        · exact absurd h (List.not_mem_nil c)
        · exact Or.inr (List.mem_cons_of_mem a h)
      · rw [if_neg hacc] at ht
        rcases List.mem_cons.mp ht with rfl | ht
        · exact Or.inl (List.mem_reverse.mp hc)
        · rcases ih [] t ht c hc with h | h
          · exact absurd h (List.not_mem_nil c)
          · exact Or.inr (List.mem_cons_of_mem a h)
    · rw [if_neg hsep] at ht
      rcases ih (a :: acc) t ht c hc with h | h
      · rcases List.mem_cons.mp h with rfl | h
        · exact Or.inr (List.mem_cons_self _ _)
        · exact Or.inl h
      · exact Or.inr (List.mem_cons_of_mem a h)

theorem splitSepAux_ne_nil : ∀ (l acc t : List Char), t ∈ splitSepAux l acc → t ≠ [] := by
  intro l
  induction l with
  | nil =>
    intro acc t ht
    rw [splitSepAux] at ht
    by_cases hacc : acc.isEmpty
    · rw [if_pos hacc] at ht
      exact absurd ht (List.not_mem_nil t)
    · rw [if_neg hacc] at ht
      rcases List.mem_singleton.mp ht with rfl
      intro he
      rw [List.reverse_eq_nil_iff] at he
      rw [he] at hacc
      exact hacc rfl
  | cons a l ih =>
    intro acc t ht
    rw [splitSepAux] at ht
    by_cases hsep : isWordSep a
    · rw [if_pos hsep] at ht
      by_cases hacc : acc.isEmpty
      · rw [if_pos hacc] at ht
        exact ih [] t ht
      · rw [if_neg hacc] at ht
        rcases List.mem_cons.mp ht with rfl | ht
        · intro he
          rw [List.reverse_eq_nil_iff] at he
          rw [he] at hacc
          exact hacc rfl
        · exact ih [] t ht
    · rw [if_neg hsep] at ht
      exact ih (a :: acc) t ht

theorem splitSepAux_nonsep : ∀ (l acc t : List Char),
    (∀ c ∈ acc, isWordSep c = false) → t ∈ splitSepAux l acc →
    ∀ c ∈ t, isWordSep c = false := by
  intro l
  induction l with
  | nil =>
    intro acc t hacc ht c hc
    rw [splitSepAux] at ht
    by_cases he : acc.isEmpty
    · rw [if_pos he] at ht
      exact absurd ht (List.not_mem_nil t)
    · rw [if_neg he] at ht
      rcases List.mem_singleton.mp ht with rfl
      exact hacc c (List.mem_reverse.mp hc)
  | cons a l ih =>
    intro acc t hacc ht c hc
    rw [splitSepAux] at ht
    by_cases hsep : isWordSep a
    · rw [if_pos hsep] at ht
      by_cases he : acc.isEmpty
      · rw [if_pos he] at ht
        exact ih [] t (by simp) ht c hc
      · rw [if_neg he] at ht
        rcases List.mem_cons.mp ht with rfl | ht
        · exact hacc c (List.mem_reverse.mp hc)
        · exact ih [] t (by simp) ht c hc
    · rw [if_neg hsep] at ht
      refine ih (a :: acc) t ?_ ht c hc
      intro d hd
      rcases List.mem_cons.mp hd with rfl | hd
      · rwa [Bool.not_eq_true] at hsep
      · exact hacc d hd



theorem intercalate_nil_toks (sep : List Char) : List.intercalate sep ([] : List (List Char)) = [] := by
  simp [List.intercalate]

theorem intercalate_single (sep x : List Char) : List.intercalate sep [x] = x := by
  simp [List.intercalate]

theorem intercalate_cons_cons (sep x y : List Char) (xs : List (List Char)) :
    List.intercalate sep (x :: y :: xs) = x ++ sep ++ List.intercalate sep (y :: xs) := by
  simp [List.intercalate, List.intersperse]

theorem head?_intercalate (sep x : List Char) (xs : List (List Char)) (hx : x ≠ []) :
    (List.intercalate sep (x :: xs)).head? = x.head? := by
  cases xs with
  | nil => rw [intercalate_single]
  | cons y ys =>
    rw [intercalate_cons_cons]
    rcases x with _ | ⟨c, cs⟩
    · exact absurd rfl hx
    · simp

theorem intercalate_ne_nil (sep x : List Char) (xs : List (List Char)) (hx : x ≠ []) :
    List.intercalate sep (x :: xs) ≠ [] := by
  intro he
  have := head?_intercalate sep x xs hx
  rw [he] at this
  rcases x with _ | ⟨c, cs⟩
  · exact absurd rfl hx
  · exact Option.noConfusion this.symm

theorem getLast?_intercalate_mem (sep : List Char) :
    ∀ (xs : List (List Char)), (∀ t ∈ xs, t ≠ []) → xs ≠ [] →
    ∃ t ∈ xs, (List.intercalate sep xs).getLast? = t.getLast? := by
  intro xs
  induction xs with
  | nil => intro _ hne; exact absurd rfl hne
  | cons x ys ih =>
    intro hts _
    cases ys with
    | nil =>
      refine ⟨x, List.mem_singleton.mpr rfl, ?_⟩
      rw [intercalate_single]
    | cons y zs =>
      rcases ih (fun t ht => hts t (List.mem_cons_of_mem x ht)) (by simp) with ⟨t, ht, he⟩
      refine ⟨t, List.mem_cons_of_mem x ht, ?_⟩
      rw [intercalate_cons_cons, List.append_assoc,
        List.getLast?_append_of_ne_nil _
          (by
            intro hc
            rcases List.append_eq_nil.mp hc with ⟨_, hc2⟩
            exact intercalate_ne_nil sep y zs (hts y (by simp)) hc2)]
      rw [List.getLast?_append_of_ne_nil _
        (intercalate_ne_nil sep y zs (hts y (by simp)))]
      exact he

theorem map_intercalate (f : Char → Char) (sep : List Char) :
    ∀ xs : List (List Char),
    List.map f (List.intercalate sep xs) =
      List.intercalate (sep.map f) (xs.map (List.map f)) := by
  intro xs
  induction xs with
  | nil => simp [List.intercalate]
  | cons x ys ih =>
    cases ys with
    | nil =>
      rw [List.map_cons, List.map_nil, intercalate_single, intercalate_single]
    | cons y zs =>
      rw [intercalate_cons_cons, List.map_append, List.map_append, ih]
      simp [intercalate_cons_cons]

theorem mem_intercalate (sep : List Char) :
    ∀ (xs : List (List Char)) (c : Char), c ∈ List.intercalate sep xs →
    (∃ t ∈ xs, c ∈ t) ∨ c ∈ sep := by
  intro xs
  induction xs with
  | nil =>
    intro c hc
    rw [intercalate_nil_toks] at hc
    exact absurd hc (List.not_mem_nil c)
  | cons x ys ih =>
    intro c hc
    cases ys with
    | nil =>
      rw [intercalate_single] at hc
      exact Or.inl ⟨x, List.mem_singleton.mpr rfl, hc⟩
    | cons y zs =>
      rw [intercalate_cons_cons, List.append_assoc] at hc
      rcases List.mem_append.mp hc with hc | hc
      · exact Or.inl ⟨x, List.mem_cons_self _ _, hc⟩
      · rcases List.mem_append.mp hc with hc | hc
        · exact Or.inr hc
        · rcases ih c hc with ⟨t, ht, hct⟩ | hc
          · exact Or.inl ⟨t, List.mem_cons_of_mem x ht, hct⟩
          · exact Or.inr hc



theorem collapse_head_nonsep (l : List Char)
    (h : ∀ c, l.head? = some c → isWordSep c = false) (b b' : Bool) :
    collapseSepAux b l = collapseSepAux b' l := by
  cases l with
  | nil => rfl
  | cons c cs =>
    rw [collapseSepAux, collapseSepAux, if_neg, if_neg]
    · rw [h c rfl]; simp
    · rw [h c rfl]; simp

theorem collapse_append_token (t : List Char) (h : ∀ c ∈ t, isWordSep c = false) :
    ∀ (hne : t ≠ []) (b : Bool) (rest : List Char),
    collapseSepAux b (t ++ rest) = t ++ collapseSepAux false rest := by
  induction t with
  | nil => intro hne; exact absurd rfl hne
  | cons c t' ih =>
    intro _ b rest
    rw [List.cons_append, collapseSepAux, if_neg (by rw [h c (List.mem_cons_self _ _)]; simp)]
    by_cases ht' : t' = []
    · subst ht'
      rw [List.nil_append]
      rfl
    · rw [ih (fun d hd => h d (List.mem_cons_of_mem c hd)) ht' false rest]
      rfl

theorem collapse_intercalate :
    ∀ toks : List (List Char),
    (∀ t ∈ toks, t ≠ [] ∧ ∀ c ∈ t, isWordSep c = false) →
    collapseSepAux false (List.intercalate [' '] toks) = List.intercalate ['-'] toks := by
  intro toks
  induction toks with
  | nil => intro _; simp [List.intercalate, collapseSepAux]
  | cons x ys ih =>
    intro hts
    cases ys with
    | nil =>
      rw [intercalate_single, intercalate_single]
      have hx := hts x (List.mem_singleton.mpr rfl)
      rw [show collapseSepAux false x = collapseSepAux false (x ++ []) by simp,
        collapse_append_token x hx.2 hx.1]
      simp [collapseSepAux]
    | cons y zs =>
      have hx := hts x (List.mem_cons_self _ _)
      have hy := hts y (List.mem_cons_of_mem x (List.mem_cons_self _ _))
      rw [intercalate_cons_cons, intercalate_cons_cons, List.append_assoc,
        collapse_append_token x hx.2 hx.1]
      have hrest : ([' '] ++ List.intercalate [' '] (y :: zs)) =
          ' ' :: List.intercalate [' '] (y :: zs) := rfl
      rw [hrest, collapseSepAux, if_pos (by decide)]
      have hhead : ∀ c, (List.intercalate [' '] (y :: zs)).head? = some c →
          isWordSep c = false := by
        intro c hc
        rw [head?_intercalate [' '] y zs hy.1] at hc
        exact hy.2 c (List.mem_of_mem_head? hc)
      rw [collapse_head_nonsep _ hhead true false,
        ih (fun t ht => hts t (List.mem_cons_of_mem x ht))]
      simp

theorem lowerL_eq_self (t : List Char) (h : ∀ c ∈ t, isSlugChar c = true) :
    lowerL t = t := by
  induction t with
  | nil => rfl
  | cons c cs ih =>
    rw [lowerL, List.map_cons, toLower_eq_self_of_slug c (h c (List.mem_cons_self _ _))]
    rw [show List.map Char.toLower cs = lowerL cs from rfl,
      ih (fun d hd => h d (List.mem_cons_of_mem c hd))]

/-- `p.lower().capitalize()` on a slug token `c :: cs`:
the head is uppercased, the rest unchanged. -/
theorem capTok_of_slug (c : Char) (cs : List Char)
    (h : ∀ d ∈ c :: cs, isSlugChar d = true) :
    capitalizeL (lowerL (c :: cs)) = Char.toUpper c :: cs := by
  rw [show lowerL (c :: cs) = c :: lowerL cs from by
    rw [lowerL, List.map_cons, toLower_eq_self_of_slug c (h c (List.mem_cons_self _ _))]; rfl]
  rw [lowerL_eq_self cs (fun d hd => h d (List.mem_cons_of_mem c hd))]
  rw [capitalizeL]
  rw [show List.map Char.toLower cs = lowerL cs from rfl,
    lowerL_eq_self cs (fun d hd => h d (List.mem_cons_of_mem c hd))]

theorem lowerL_capTok (c : Char) (cs : List Char)
    (h : ∀ d ∈ c :: cs, isSlugChar d = true) :
    lowerL (capitalizeL (lowerL (c :: cs))) = c :: cs := by
  rw [capTok_of_slug c cs h, lowerL, List.map_cons,
    toLower_toUpper_of_slug c (h c (List.mem_cons_self _ _))]
  rw [show List.map Char.toLower cs = lowerL cs from rfl,
    lowerL_eq_self cs (fun d hd => h d (List.mem_cons_of_mem c hd))]



/-- C8 (core, on character lists): for a normalized slug,
`title_to_slug (slug_to_title s) = s`. -/
theorem slug_roundtrip_list (s : List Char) (h : isNormalizedSlug s) :
    titleToSlugL (slugToTitleL s) = s := by
  obtain ⟨hchars, hs⟩ := h
  by_cases hnil : s = []
  · subst hnil; rfl
  have htokfacts : ∀ t ∈ splitSepL s, t ≠ [] ∧ ∀ c ∈ t, isSlugChar c = true := by
    intro t ht
    refine ⟨splitSepAux_ne_nil s [] t ht, ?_⟩
    intro c hc
    have hmem : c ∈ s := by
      rcases splitSepAux_mem_subset s [] t ht c hc with hm | hm
      · exact absurd hm (List.not_mem_nil c)
      · exact hm
    have hns : isWordSep c = false := splitSepAux_nonsep s [] t (by simp) ht c hc
    have hsl := hchars c hmem
    rw [Bool.or_eq_true] at hsl
    rcases hsl with hsl | hsl
    · exact hsl
    · rw [decide_eq_true_eq] at hsl
      subst hsl
      exact absurd hns (by decide)
  have htoksne : splitSepL s ≠ [] := by
    intro he
    rw [he, intercalate_nil_toks] at hs
    exact hnil hs
  rcases htoks : splitSepL s with _ | ⟨t0, rest⟩
  · exact absurd htoks htoksne
  rw [htoks] at htokfacts hs
  have ht0 := htokfacts t0 (List.mem_cons_self _ _)
  -- slug_to_title
  have hstrip_s : stripL s = s := by
    refine stripL_eq_self_of_all s ?_
    intro c hc
    have hsl := hchars c hc
    rw [Bool.or_eq_true] at hsl
    rcases hsl with hsl | hsl
    · exact slug_isSpace_false c hsl
    · rw [decide_eq_true_eq] at hsl
      subst hsl
      decide
  have htitle : slugToTitleL s =
      List.intercalate [' '] ((t0 :: rest).map (fun p => capitalizeL (lowerL p))) := by
    rw [slugToTitleL]
    simp only [hstrip_s, htoks]
    rw [if_neg (by rw [List.isEmpty_iff]; exact hnil)]
  -- facts about the capitalized tokens
  have htokcap : ∀ t ∈ t0 :: rest, ∃ c cs, t = c :: cs ∧
      capitalizeL (lowerL t) = Char.toUpper c :: cs := by
    intro t ht
    obtain ⟨hne, hslug⟩ := htokfacts t ht
    rcases List.exists_cons_of_ne_nil hne with ⟨c, cs, rfl⟩
    exact ⟨c, cs, rfl, capTok_of_slug c cs hslug⟩
  have hcaps_ne : ∀ u ∈ (t0 :: rest).map (fun p => capitalizeL (lowerL p)), u ≠ [] := by
    intro u hu
    rcases List.mem_map.mp hu with ⟨t, ht, rfl⟩
    rcases htokcap t ht with ⟨c, cs, hteq, hcap⟩
    rw [hcap]
    simp
  have hcaps_nospace : ∀ u ∈ (t0 :: rest).map (fun p => capitalizeL (lowerL p)),
      ∀ c ∈ u, isSpace c = false := by
    intro u hu d hd
    rcases List.mem_map.mp hu with ⟨t, ht, rfl⟩
    rcases htokcap t ht with ⟨c, cs, hteq, hcap⟩
    obtain ⟨_, hslug⟩ := htokfacts t ht
    rw [hcap] at hd
    rcases List.mem_cons.mp hd with rfl | hd
    · exact toUpper_isSpace_false c (hslug c (hteq ▸ List.mem_cons_self _ _))
    · exact slug_isSpace_false d (hslug d (hteq ▸ List.mem_cons_of_mem c hd))
  have hcaps_lower : ((t0 :: rest).map (fun p => capitalizeL (lowerL p))).map lowerL =
      t0 :: rest := by
    rw [List.map_map]
    refine Eq.trans (List.map_congr_left ?_) (List.map_id _)
    intro t ht
    obtain ⟨hne, hslug⟩ := htokfacts t ht
    rcases List.exists_cons_of_ne_nil hne with ⟨c, cs, rfl⟩
    exact lowerL_capTok c cs hslug
  -- strip is the identity on the generated title
  have hstrip_title : stripL (List.intercalate [' ']
      ((t0 :: rest).map (fun p => capitalizeL (lowerL p)))) =
      List.intercalate [' '] ((t0 :: rest).map (fun p => capitalizeL (lowerL p))) := by
    refine stripL_eq_self _ ?_ ?_
    · intro c hc
      rw [List.map_cons, head?_intercalate [' '] _ _
        (hcaps_ne _ (List.mem_map_of_mem _ (List.mem_cons_self _ _)))] at hc
      exact hcaps_nospace _ (List.mem_map_of_mem _ (List.mem_cons_self _ _)) c
        (List.mem_of_mem_head? hc)
    · intro c hc
      rcases getLast?_intercalate_mem [' '] _ hcaps_ne (by simp) with ⟨u, hu, he⟩
      rw [he] at hc
      exact hcaps_nospace u hu c (List.mem_of_getLast?_eq_some hc)
  -- lowering the title recovers the hyphenless token join
  have hlower_title : lowerL (List.intercalate [' ']
      ((t0 :: rest).map (fun p => capitalizeL (lowerL p)))) =
      List.intercalate [' '] (t0 :: rest) := by
    rw [show lowerL (List.intercalate [' ']
        ((t0 :: rest).map (fun p => capitalizeL (lowerL p)))) =
      List.map Char.toLower (List.intercalate [' ']
        ((t0 :: rest).map (fun p => capitalizeL (lowerL p)))) from rfl]
    rw [map_intercalate]
    rw [show List.map Char.toLower [' '] = [' '] from by decide]
    rw [show List.map (List.map Char.toLower) = List.map lowerL from rfl]
    rw [hcaps_lower]
  have htoks_nonsep : ∀ t ∈ t0 :: rest, t ≠ [] ∧ ∀ c ∈ t, isWordSep c = false := by
    intro t ht
    obtain ⟨hne, hslug⟩ := htokfacts t ht
    exact ⟨hne, fun c hc => slug_isWordSep_false c (hslug c hc)⟩
  have hjoin_ne : List.intercalate [' '] (t0 :: rest) ≠ [] :=
    intercalate_ne_nil [' '] t0 rest ht0.1
  have hfilter : (List.intercalate [' '] (t0 :: rest)).filter keepChar =
      List.intercalate [' '] (t0 :: rest) := by
    rw [List.filter_eq_self]
    intro c hc
    rcases mem_intercalate [' '] _ c hc with ⟨t, ht, hct⟩ | hc
    · exact slug_keepChar c ((htokfacts t ht).2 c hct)
    · rcases List.mem_singleton.mp hc with rfl
      decide
  have hcollapse : collapseSepAux false (List.intercalate [' '] (t0 :: rest)) =
      List.intercalate ['-'] (t0 :: rest) :=
    collapse_intercalate _ htoks_nonsep
  have hstriph : stripHyphens (List.intercalate ['-'] (t0 :: rest)) =
      List.intercalate ['-'] (t0 :: rest) := by
    refine stripHyphens_eq_self _ ?_ ?_
    · intro c hc
      rw [head?_intercalate ['-'] t0 rest ht0.1] at hc
      exact slug_ne_hyphen c (ht0.2 c (List.mem_of_mem_head? hc))
    · intro c hc
      rcases getLast?_intercalate_mem ['-'] (t0 :: rest)
          (fun t ht => (htokfacts t ht).1) (by simp) with ⟨u, hu, he⟩
      rw [he] at hc
      exact slug_ne_hyphen c ((htokfacts u hu).2 c (List.mem_of_getLast?_eq_some hc))
  -- assemble
  rw [htitle, titleToSlugL]
  simp only [hstrip_title, hlower_title]
  rw [if_neg (by rw [List.isEmpty_iff]; exact hjoin_ne)]
  rw [hfilter, hcollapse, hstriph]
  exact hs.symm



/-- C8: for every slug already in normalized form (lowercase alphanumeric
tokens joined by single hyphens, no leading/trailing hyphen),
`title_to_slug (slug_to_title s)` returns `s` exactly.  (No claim is made in
the reverse direction.) -/
theorem title_to_slug_roundtrip (s : String) (h : isNormalizedSlug s.toList) :
    title_to_slug (slug_to_title s) = s := by
  rw [slug_to_title, title_to_slug]
  rw [show (⟨slugToTitleL s.toList⟩ : String).toList = slugToTitleL s.toList from rfl]
  rw [slug_roundtrip_list s.toList h]
  cases s
  rfl

theorem title_to_slug_roundtrip_witness :
    isNormalizedSlug ("science-fiction".toList) ∧
    title_to_slug (slug_to_title "science-fiction") = "science-fiction" :=
  ⟨by decide, title_to_slug_roundtrip "science-fiction" (by decide)⟩

/-! ## The fuzzy genre matcher (C7) -/

theorem insertDesc_perm (x : String × Rat) (l : List (String × Rat)) :
    (insertDesc x l).Perm (x :: l) := by
  induction l with
  | nil => simp [insertDesc]
  | cons y ys ih =>
    by_cases h : x.2 ≥ y.2
    · rw [insertDesc, if_pos h]
    · rw [insertDesc, if_neg h]
      exact (ih.cons y).trans (List.Perm.swap x y ys)

theorem mem_insertDesc (a x : String × Rat) (l : List (String × Rat)) :
    a ∈ insertDesc x l ↔ a = x ∨ a ∈ l := by
  constructor
  · intro h
    have := (insertDesc_perm x l).mem_iff.mp h
    simpa using this
  · intro h
    refine (insertDesc_perm x l).mem_iff.mpr ?_
    simpa using h

theorem insertDesc_pairwise (x : String × Rat) (l : List (String × Rat))
    (h : l.Pairwise (fun a b => b.2 ≤ a.2)) :
    (insertDesc x l).Pairwise (fun a b => b.2 ≤ a.2) := by
  induction l with
  | nil => simp [insertDesc]
  | cons y ys ih =>
    rw [List.pairwise_cons] at h
    by_cases hxy : x.2 ≥ y.2
    · rw [insertDesc, if_pos hxy]
      refine List.Pairwise.cons ?_ (List.Pairwise.cons h.1 h.2)
      intro z hz
      rcases List.mem_cons.mp hz with hz | hz
      · subst hz; exact hxy
      · exact le_trans (h.1 z hz) hxy
    · rw [insertDesc, if_neg hxy]
      refine List.Pairwise.cons ?_ (ih h.2)
      intro z hz
      rcases (mem_insertDesc z x ys).mp hz with hz | hz
      · subst hz; exact le_of_lt (lt_of_not_ge hxy)
      · exact h.1 z hz

theorem sortDesc_perm (l : List (String × Rat)) : (sortDesc l).Perm l := by
  induction l with
  | nil => simp [sortDesc]
  | cons x xs ih =>
    rw [sortDesc]
    exact (insertDesc_perm x (sortDesc xs)).trans (ih.cons x)

theorem sortDesc_pairwise (l : List (String × Rat)) :
    (sortDesc l).Pairwise (fun a b => b.2 ≤ a.2) := by
  induction l with
  | nil => simp [sortDesc]
  | cons x xs ih =>
    rw [sortDesc]
    exact insertDesc_pairwise x (sortDesc xs) ih

/-- C7: the genre-resolution decision of `genre_command`.  An exact slug
match is chosen immediately with no scoring; otherwise the ranked list is a
stable descending sort of every known slug scored against the slugified
keyword, the top candidate is auto-picked **iff** its score is at least 0.90
and leads the runner-up (0.0 when there is none) by at least 0.07, and
otherwise the top up-to-10 candidates are offered for interactive selection.
The similarity ratio itself (`difflib.SequenceMatcher.ratio`) is Python
standard-library code, modelled by the parameter `score`. -/
theorem genre_resolution_spec (score : String → String → Rat) (keyword : String)
    (genres : List String) (b : String) (s : Rat) (rest : List (String × Rat)) :
    (title_to_slug (stripS keyword) ∈ genres →
      genreResolution score keyword genres = .exact (title_to_slug (stripS keyword))) ∧
    ((rank_genre_matches score keyword genres).Pairwise (fun x y => y.2 ≤ x.2) ∧
      ((rank_genre_matches score keyword genres).map Prod.fst).Perm genres) ∧
    (title_to_slug (stripS keyword) ∉ genres →
      rank_genre_matches score keyword genres = (b, s) :: rest →
      (genreResolution score keyword genres = .autoPick b ↔
        s ≥ AUTO_PICK_CUTOFF ∧ s - secondScore rest ≥ AUTO_PICK_MARGIN) ∧
      (¬(s ≥ AUTO_PICK_CUTOFF ∧ s - secondScore rest ≥ AUTO_PICK_MARGIN) →
        genreResolution score keyword genres = .offer (((b, s) :: rest).take MAX_SUGGESTIONS) ∧
        (((b, s) :: rest).take MAX_SUGGESTIONS).length ≤ 10)) := by
  refine ⟨?_, ⟨?_, ?_⟩, ?_⟩
  · intro hmem
    rw [genreResolution, if_pos hmem]
  · exact sortDesc_pairwise _
  · have hperm : (rank_genre_matches score keyword genres).Perm
        (genres.map (fun g => (g, score (title_to_slug (stripS keyword)) g))) := by
      rw [rank_genre_matches]
      exact sortDesc_perm _
    have hmap := hperm.map Prod.fst
    rw [List.map_map] at hmap
    have hid : List.map (Prod.fst ∘ fun g => (g, score (title_to_slug (stripS keyword)) g))
        genres = genres := by
      simp [Function.comp_def]
    rw [hid] at hmap
    exact hmap
  · intro hmem hranked
    rw [genreResolution, if_neg hmem, hranked]
    dsimp only
    by_cases hcond : s ≥ AUTO_PICK_CUTOFF ∧ s - secondScore rest ≥ AUTO_PICK_MARGIN
    · rw [if_pos hcond]
      refine ⟨⟨fun _ => hcond, fun _ => rfl⟩, fun hn => absurd hcond hn⟩
    · rw [if_neg hcond]
      refine ⟨⟨fun h => absurd h (by simp), fun h => absurd h hcond⟩, fun _ => ⟨rfl, ?_⟩⟩
      simp [MAX_SUGGESTIONS]

theorem genre_resolution_spec_witness :
    (title_to_slug (stripS "science fiction") ∈ ["science-fiction", "fantasy"] ∧
      genreResolution (fun _ _ => (0 : Rat)) "science fiction"
          ["science-fiction", "fantasy"] =
        .exact (title_to_slug (stripS "science fiction"))) ∧
    (title_to_slug (stripS "scifi") ∉ ["science-fiction", "fantasy"] ∧
      rank_genre_matches (fun _ _ => (0 : Rat)) "scifi" ["science-fiction", "fantasy"] =
        ("science-fiction", (0 : Rat)) :: [("fantasy", (0 : Rat))] ∧
      genreResolution (fun _ _ => (0 : Rat)) "scifi" ["science-fiction", "fantasy"] =
        .offer ((("science-fiction", (0 : Rat)) ::
          [("fantasy", (0 : Rat))]).take MAX_SUGGESTIONS)) := by
  refine ⟨⟨by decide, ?_⟩, by decide, by decide, ?_⟩
  · exact (genre_resolution_spec (fun _ _ => (0 : Rat)) "science fiction"
      ["science-fiction", "fantasy"] "" 0 []).1 (by decide)
  · exact (((genre_resolution_spec (fun _ _ => (0 : Rat)) "scifi"
      ["science-fiction", "fantasy"] "science-fiction" (0 : Rat)
      [("fantasy", (0 : Rat))]).2.2 (by decide) (by decide)).2
      (by norm_num [AUTO_PICK_CUTOFF, AUTO_PICK_MARGIN, secondScore])).1

end Goodreader
